import Mathlib

/-!
Verification of the nfs4 client protocol stack (XDR codec, Sun-RPC framing,
NFSv4.1 session and COMPOUND engine) against its natural-language
specification.  The Rust sources are shallowly embedded: machine integers
become `Nat` with explicit `% 2 ^ w` where overflow matters, byte buffers
become `List Nat`, and fallible code returns `Option` or `Except`.
-/

namespace Nfs4Spec

/-! ## Byte-level XDR helpers

The XDR codec (serde_xdr) writes `u32`/`u64` big-endian.  `be32`/`be64`
produce the byte lists, `parseBe32` mirrors reading four bytes from the
front of a stream. -/

/-- Big-endian 4-byte encoding of a `u32` value (values are truncated to
32 bits exactly as a Rust `as u32` cast would). -/
def be32 (n : Nat) : List Nat :=
  [n % 2 ^ 32 / 2 ^ 24, n % 2 ^ 24 / 2 ^ 16, n % 2 ^ 16 / 2 ^ 8, n % 2 ^ 8]

/-- Big-endian 8-byte encoding of a `u64` value. -/
def be64 (n : Nat) : List Nat :=
  be32 (n % 2 ^ 64 / 2 ^ 32) ++ be32 n

/-- Read a big-endian `u32` from the front of a byte stream. -/
def parseBe32 : List Nat → Option (Nat × List Nat)
  | b0 :: b1 :: b2 :: b3 :: rest =>
    some (((b0 * 2 ^ 8 + b1) * 2 ^ 8 + b2) * 2 ^ 8 + b3, rest)
  | _ => none

/-- Read a big-endian `u64` from the front of a byte stream. -/
def parseBe64 (s : List Nat) : Option (Nat × List Nat) :=
  (parseBe32 s).bind fun p =>
    (parseBe32 p.2).bind fun q => some (p.1 * 2 ^ 32 + q.1, q.2)

theorem be32_length (n : Nat) : (be32 n).length = 4 := rfl

theorem parseBe32_be32 (n : Nat) (rest : List Nat) (h : n < 2 ^ 32) :
    parseBe32 (be32 n ++ rest) = some (n, rest) := by
  simp only [be32, List.cons_append, List.nil_append, parseBe32, Option.some.injEq,
    Prod.mk.injEq]
  refine ⟨by omega, trivial⟩

theorem parseBe64_be64 (n : Nat) (rest : List Nat) (h : n < 2 ^ 64) :
    parseBe64 (be64 n ++ rest) = some (n, rest) := by
  have hm : n % 2 ^ 64 = n := Nat.mod_eq_of_lt h
  have h1 : n % 2 ^ 64 / 2 ^ 32 < 2 ^ 32 := by omega
  have h2 : n % 2 ^ 32 < 2 ^ 32 := by omega
  have hb : be32 n = be32 (n % 2 ^ 32) := by
    simp only [be32, List.cons.injEq, and_true]
    refine ⟨by omega, by omega, by omega, by omega⟩
  have step1 : be64 n ++ rest = be32 (n % 2 ^ 64 / 2 ^ 32) ++ (be32 (n % 2 ^ 32) ++ rest) := by
    rw [be64, ← hb, List.append_assoc]
  rw [parseBe64, step1, parseBe32_be32 _ _ h1]
  simp only [Option.some_bind]
  rw [parseBe32_be32 _ _ h2]
  simp only [Option.some_bind, Option.some.injEq, Prod.mk.injEq]
  refine ⟨by omega, trivial⟩

/-! ## C9: Sun-RPC record framing

`RpcClient::send_request` serializes the message after a 4-byte hole, then
writes `(serialized.len() - 4) as u32 | 0x1 << 31` into the hole as the
fragment header.  `RpcClient::receive_reply` reads the header, masks off
the high bit with `header & !(0x1 << 31)` and reads that many bytes. -/

/-- Fragment header for a payload of `len` bytes, as computed by
`send_request`: `(len as u32) | 0x1 << 31`. -/
def fragmentHeader (len : Nat) : Nat :=
  len % 2 ^ 32 ||| 1 <<< 31

/-- Bytes put on the wire for one RPC record carrying payload `b`
(`send_request`): the big-endian fragment header followed by the payload. -/
def encodeFragment (b : List Nat) : List Nat :=
  be32 (fragmentHeader b.length) ++ b

/-- Read one RPC record back (`receive_reply`): parse the header, mask the
final-fragment bit with `& !(0x1 << 31)` to obtain the length, and take
that many payload bytes (`io::Read::take`). -/
def decodeFragment (s : List Nat) : Option (List Nat) :=
  match parseBe32 s with
  | some (header, rest) =>
    let length := header &&& (2 ^ 31 - 1)
    if length ≤ rest.length then some (rest.take length) else none
  | none => none

theorem one_shiftLeft_31 : (1 : Nat) <<< 31 = 2 ^ 31 := by
  norm_num [Nat.shiftLeft_eq]

theorem fragmentHeader_lt (len : Nat) : fragmentHeader len < 2 ^ 32 := by
  rw [fragmentHeader, one_shiftLeft_31]
  exact Nat.or_lt_two_pow (Nat.mod_lt _ (by norm_num)) (by norm_num)

theorem fragmentHeader_low_bits (len : Nat) (h : len < 2 ^ 31) :
    fragmentHeader len % 2 ^ 31 = len := by
  have hm : len % 2 ^ 32 = len := Nat.mod_eq_of_lt (by omega)
  rw [fragmentHeader, hm, one_shiftLeft_31, ← Nat.and_pow_two_sub_one_eq_mod,
    Nat.and_distrib_right, Nat.and_pow_two_sub_one_eq_mod, Nat.and_pow_two_sub_one_eq_mod,
    Nat.mod_eq_of_lt h, Nat.mod_self, Nat.or_zero]

theorem fragmentHeader_and_mask (len : Nat) (h : len < 2 ^ 31) :
    fragmentHeader len &&& (2 ^ 31 - 1) = len := by
  rw [Nat.and_pow_two_sub_one_eq_mod, fragmentHeader_low_bits len h]

theorem fragmentHeader_high_bit (len : Nat) : (fragmentHeader len).testBit 31 = true := by
  rw [fragmentHeader, one_shiftLeft_31, Nat.testBit_or, Nat.testBit_two_pow_self,
    Bool.or_true]

/-- Claim C9: for every payload `b` (of fragment-representable size),
encoding an RPC record yields a 4-byte big-endian header with bit 31 set
and low 31 bits equal to `b.length`, followed by `b` itself, and decoding
the record recovers exactly `b`. -/
theorem rpc_fragment_roundtrip (b : List Nat) (h : b.length < 2 ^ 31) :
    encodeFragment b = be32 (fragmentHeader b.length) ++ b
    ∧ (fragmentHeader b.length).testBit 31 = true
    ∧ fragmentHeader b.length % 2 ^ 31 = b.length
    ∧ decodeFragment (encodeFragment b) = some b := by
  refine ⟨rfl, fragmentHeader_high_bit b.length, fragmentHeader_low_bits b.length h, ?_⟩
  have hp := parseBe32_be32 (fragmentHeader b.length) b (fragmentHeader_lt b.length)
  simp only [decodeFragment, encodeFragment, hp, fragmentHeader_and_mask b.length h,
    le_refl, if_true, List.take_length]

/-- Witness for C9 at the concrete payload `[1, 2, 3]`. -/
theorem rpc_fragment_roundtrip_witness :
    ([1, 2, 3] : List Nat).length < 2 ^ 31
    ∧ (encodeFragment [1, 2, 3] = be32 (fragmentHeader ([1, 2, 3] : List Nat).length) ++ [1, 2, 3]
        ∧ (fragmentHeader ([1, 2, 3] : List Nat).length).testBit 31 = true
        ∧ fragmentHeader ([1, 2, 3] : List Nat).length % 2 ^ 31 = ([1, 2, 3] : List Nat).length
        ∧ decodeFragment (encodeFragment [1, 2, 3]) = some [1, 2, 3]) :=
  ⟨by norm_num, rpc_fragment_roundtrip [1, 2, 3] (by norm_num)⟩


/-! ## C6: StatusResult status-code decoding

The source (`src/nfs4/src/lib.rs`) declares `StatusError` as a `u32` enum
with explicit discriminants and derives `TryFromPrimitive`;
`StatusResult<T>` serializes `Ok` as a zero `u32` followed by the payload
and `Err` as the bare status code, and its `Deserialize` impl reads the
discriminant, treats `0` as `Ok` and otherwise converts the code with
`try_into`, failing on unknown codes. -/

/-- The NFSv4 status-code catalog from the source (`StatusError`,
`#[repr(u32)]` with explicit discriminants). -/
inductive StatusError where
  | Perm
  | NoEnt
  | Io
  | NxIo
  | Access
  | Exist
  | XDev
  | NotDir
  | Isdir
  | Inval
  | FBig
  | NoSpc
  | RoFs
  | MLink
  | NameTooLong
  | NotEmpty
  | DQuot
  | Stale
  | BadHandle
  | BadCookie
  | NotSupported
  | TooSmall
  | ServerFault
  | BadType
  | Delay
  | Same
  | Denied
  | Expired
  | Locked
  | Grace
  | FhExpired
  | ShareDenied
  | WrongSec
  | ClidInUse
  | Moved
  | NoFileHandle
  | MinorVersMismatch
  | StaleClientId
  | StaleStateId
  | OldStateId
  | BadStateId
  | BadSeqId
  | NotSame
  | LockRange
  | Symlink
  | RestoreFh
  | LeaseMoved
  | AttrNotSupported
  | NoGrace
  | ReclaimBad
  | ReclaimConflict
  | BadXdr
  | LocksHeld
  | OpenMode
  | BadOwner
  | BadChar
  | BadName
  | BadRange
  | LockNotSupported
  | OpIllegal
  | Deadlock
  | FileOpen
  | AdminRevoked
  | CbPathDown
  | BadIoMode
  | BadLayout
  | BadSessionDigest
  | BadSession
  | BadSlot
  | CompleteAlready
  | ConnNotBoundToSession
  | DelegAlreadyWanted
  | BackChanBusy
  | LayoutTryLater
  | LayoutUnavailable
  | NoMatchingLayout
  | RecallConflict
  | UnknownLayoutType
  | SeqMisordered
  | SequencePos
  | ReqTooBig
  | RepTooBig
  | RepTooBigToCache
  | RetryUncachedRep
  | UnsafeCompound
  | TooManyOps
  | OpNotInSession
  | HashAlgUnsupported
  | ClientIdBusy
  | PnfsIoHole
  | SeqFalseRetry
  | BadHighSlot
  | DeadSession
  | EncrAlgUnsupported
  | PnfsNoLayout
  | NotOnlyOp
  | WrongCred
  | WrongType
  | DirDelegUnavail
  | RejectDeleg
  | ReturnConflict
  | DelegRevoked
  deriving DecidableEq, Repr

/-- Numeric wire code of each `StatusError` variant (the explicit
discriminants in the source enum). -/
def statusErrorToCode : StatusError → Nat
  | .Perm => 1
  | .NoEnt => 2
  | .Io => 5
  | .NxIo => 6
  | .Access => 13
  | .Exist => 17
  | .XDev => 18
  | .NotDir => 20
  | .Isdir => 21
  | .Inval => 22
  | .FBig => 27
  | .NoSpc => 28
  | .RoFs => 30
  | .MLink => 31
  | .NameTooLong => 63
  | .NotEmpty => 66
  | .DQuot => 69
  | .Stale => 70
  | .BadHandle => 10001
  | .BadCookie => 10003
  | .NotSupported => 10004
  | .TooSmall => 10005
  | .ServerFault => 10006
  | .BadType => 10007
  | .Delay => 10008
  | .Same => 10009
  | .Denied => 10010
  | .Expired => 10011
  | .Locked => 10012
  | .Grace => 10013
  | .FhExpired => 10014
  | .ShareDenied => 10015
  | .WrongSec => 10016
  | .ClidInUse => 10017
  | .Moved => 10019
  | .NoFileHandle => 10020
  | .MinorVersMismatch => 10021
  | .StaleClientId => 10022
  | .StaleStateId => 10023
  | .OldStateId => 10024
  | .BadStateId => 10025
  | .BadSeqId => 10026
  | .NotSame => 10027
  | .LockRange => 10028
  | .Symlink => 10029
  | .RestoreFh => 10030
  | .LeaseMoved => 10031
  | .AttrNotSupported => 10032
  | .NoGrace => 10033
  | .ReclaimBad => 10034
  | .ReclaimConflict => 10035
  | .BadXdr => 10036
  | .LocksHeld => 10037
  | .OpenMode => 10038
  | .BadOwner => 10039
  | .BadChar => 10040
  | .BadName => 10041
  | .BadRange => 10042
  | .LockNotSupported => 10043
  | .OpIllegal => 10044
  | .Deadlock => 10045
  | .FileOpen => 10046
  | .AdminRevoked => 10047
  | .CbPathDown => 10048
  | .BadIoMode => 10049
  | .BadLayout => 10050
  | .BadSessionDigest => 10051
  | .BadSession => 10052
  | .BadSlot => 10053
  | .CompleteAlready => 10054
  | .ConnNotBoundToSession => 10055
  | .DelegAlreadyWanted => 10056
  | .BackChanBusy => 10057
  | .LayoutTryLater => 10058
  | .LayoutUnavailable => 10059
  | .NoMatchingLayout => 10060
  | .RecallConflict => 10061
  | .UnknownLayoutType => 10062
  | .SeqMisordered => 10063
  | .SequencePos => 10064
  | .ReqTooBig => 10065
  | .RepTooBig => 10066
  | .RepTooBigToCache => 10067
  | .RetryUncachedRep => 10068
  | .UnsafeCompound => 10069
  | .TooManyOps => 10070
  | .OpNotInSession => 10071
  | .HashAlgUnsupported => 10072
  | .ClientIdBusy => 10074
  | .PnfsIoHole => 10075
  | .SeqFalseRetry => 10076
  | .BadHighSlot => 10077
  | .DeadSession => 10078
  | .EncrAlgUnsupported => 10079
  | .PnfsNoLayout => 10080
  | .NotOnlyOp => 10081
  | .WrongCred => 10082
  | .WrongType => 10083
  | .DirDelegUnavail => 10084
  | .RejectDeleg => 10085
  | .ReturnConflict => 10086
  | .DelegRevoked => 10087

/-- Code/variant table modelling the `TryFromPrimitive` derive on
`StatusError`: a `u32` converts to the variant paired with it here, and
conversion fails for any value not in the table. -/
def statusErrorTable : List (Nat × StatusError) :=
  [(1, StatusError.Perm),
   (2, StatusError.NoEnt),
   (5, StatusError.Io),
   (6, StatusError.NxIo),
   (13, StatusError.Access),
   (17, StatusError.Exist),
   (18, StatusError.XDev),
   (20, StatusError.NotDir),
   (21, StatusError.Isdir),
   (22, StatusError.Inval),
   (27, StatusError.FBig),
   (28, StatusError.NoSpc),
   (30, StatusError.RoFs),
   (31, StatusError.MLink),
   (63, StatusError.NameTooLong),
   (66, StatusError.NotEmpty),
   (69, StatusError.DQuot),
   (70, StatusError.Stale),
   (10001, StatusError.BadHandle),
   (10003, StatusError.BadCookie),
   (10004, StatusError.NotSupported),
   (10005, StatusError.TooSmall),
   (10006, StatusError.ServerFault),
   (10007, StatusError.BadType),
   (10008, StatusError.Delay),
   (10009, StatusError.Same),
   (10010, StatusError.Denied),
   (10011, StatusError.Expired),
   (10012, StatusError.Locked),
   (10013, StatusError.Grace),
   (10014, StatusError.FhExpired),
   (10015, StatusError.ShareDenied),
   (10016, StatusError.WrongSec),
   (10017, StatusError.ClidInUse),
   (10019, StatusError.Moved),
   (10020, StatusError.NoFileHandle),
   (10021, StatusError.MinorVersMismatch),
   (10022, StatusError.StaleClientId),
   (10023, StatusError.StaleStateId),
   (10024, StatusError.OldStateId),
   (10025, StatusError.BadStateId),
   (10026, StatusError.BadSeqId),
   (10027, StatusError.NotSame),
   (10028, StatusError.LockRange),
   (10029, StatusError.Symlink),
   (10030, StatusError.RestoreFh),
   (10031, StatusError.LeaseMoved),
   (10032, StatusError.AttrNotSupported),
   (10033, StatusError.NoGrace),
   (10034, StatusError.ReclaimBad),
   (10035, StatusError.ReclaimConflict),
   (10036, StatusError.BadXdr),
   (10037, StatusError.LocksHeld),
   (10038, StatusError.OpenMode),
   (10039, StatusError.BadOwner),
   (10040, StatusError.BadChar),
   (10041, StatusError.BadName),
   (10042, StatusError.BadRange),
   (10043, StatusError.LockNotSupported),
   (10044, StatusError.OpIllegal),
   (10045, StatusError.Deadlock),
   (10046, StatusError.FileOpen),
   (10047, StatusError.AdminRevoked),
   (10048, StatusError.CbPathDown),
   (10049, StatusError.BadIoMode),
   (10050, StatusError.BadLayout),
   (10051, StatusError.BadSessionDigest),
   (10052, StatusError.BadSession),
   (10053, StatusError.BadSlot),
   (10054, StatusError.CompleteAlready),
   (10055, StatusError.ConnNotBoundToSession),
   (10056, StatusError.DelegAlreadyWanted),
   (10057, StatusError.BackChanBusy),
   (10058, StatusError.LayoutTryLater),
   (10059, StatusError.LayoutUnavailable),
   (10060, StatusError.NoMatchingLayout),
   (10061, StatusError.RecallConflict),
   (10062, StatusError.UnknownLayoutType),
   (10063, StatusError.SeqMisordered),
   (10064, StatusError.SequencePos),
   (10065, StatusError.ReqTooBig),
   (10066, StatusError.RepTooBig),
   (10067, StatusError.RepTooBigToCache),
   (10068, StatusError.RetryUncachedRep),
   (10069, StatusError.UnsafeCompound),
   (10070, StatusError.TooManyOps),
   (10071, StatusError.OpNotInSession),
   (10072, StatusError.HashAlgUnsupported),
   (10074, StatusError.ClientIdBusy),
   (10075, StatusError.PnfsIoHole),
   (10076, StatusError.SeqFalseRetry),
   (10077, StatusError.BadHighSlot),
   (10078, StatusError.DeadSession),
   (10079, StatusError.EncrAlgUnsupported),
   (10080, StatusError.PnfsNoLayout),
   (10081, StatusError.NotOnlyOp),
   (10082, StatusError.WrongCred),
   (10083, StatusError.WrongType),
   (10084, StatusError.DirDelegUnavail),
   (10085, StatusError.RejectDeleg),
   (10086, StatusError.ReturnConflict),
   (10087, StatusError.DelegRevoked)]

/-- Conversion from a `u32` code to a `StatusError` (the `TryFromPrimitive`
derive): look the code up in the discriminant table. -/
def statusErrorFromCode (n : Nat) : Option StatusError :=
  (statusErrorTable.find? (fun p => p.1 == n)).map (fun p => p.2)

/-- The set of documented status codes (1..76 and 10001..10087 with the
documented gaps), as the codes of the source enum. -/
def documentedCodes : List Nat :=
  statusErrorTable.map (fun p => p.1)

/-- Polymorphic NFS status result (`StatusResult<T>` in the source). -/
inductive StatusResult (T : Type) where
  | Ok (t : T)
  | Err (e : StatusError)
  deriving DecidableEq, Repr

/-- Decoding failures surfaced by the embedded deserializers.  The source
reports these as serde custom errors; the message text is elided, but
`unknownStatus` carries the offending code exactly as the format string
`"unexpected value {disc:?} for StatusError"` does. -/
inductive DecodeError where
  | truncated
  | expectedValue
  | unknownStatus (code : Nat)
  deriving DecidableEq, Repr

/-- Serialization of `StatusResult<T>`: `Ok(v)` writes a zero `u32` then
the payload; `Err(e)` writes the bare status code. -/
def statusResultSerialize {T : Type} (serT : T → List Nat) : StatusResult T → List Nat
  | .Ok t => be32 0 ++ serT t
  | .Err e => be32 (statusErrorToCode e)

/-- Deserialization of `StatusResult<T>` (its `Visitor::visit_seq`): read
the `u32` discriminant; `0` means `Ok` followed by the payload, any other
value is converted with `try_into` and fails on unknown codes. -/
def statusResultDeserialize {T : Type} (deserT : List Nat → Option (T × List Nat))
    (s : List Nat) : Except DecodeError (StatusResult T × List Nat) :=
  match parseBe32 s with
  | none => .error .truncated
  | some (disc, rest) =>
    if disc = 0 then
      match deserT rest with
      | some (v, rest2) => .ok (.Ok v, rest2)
      | none => .error .expectedValue
    else
      match statusErrorFromCode disc with
      | some e => .ok (.Err e, rest)
      | none => .error (.unknownStatus disc)

/-- The `()` payload of `StatusResult<()>` serializes to no bytes. -/
def serializeUnitPayload : Unit → List Nat := fun _ => []

/-- The `()` payload of `StatusResult<()>` deserializes from no bytes. -/
def deserializeUnitPayload (s : List Nat) : Option (Unit × List Nat) :=
  some ((), s)

theorem statusErrorTable_coherent :
    ∀ p ∈ statusErrorTable, statusErrorToCode p.2 = p.1 := by decide

theorem statusErrorFromCode_toCode (e : StatusError) :
    statusErrorFromCode (statusErrorToCode e) = some e := by
  cases e <;> decide

theorem statusErrorToCode_bounds (e : StatusError) :
    statusErrorToCode e ≠ 0 ∧ statusErrorToCode e < 2 ^ 32 := by
  cases e <;> exact ⟨by decide, by decide⟩

theorem statusErrorFromCode_mem {n : Nat} {e : StatusError}
    (h : statusErrorFromCode n = some e) :
    n ∈ documentedCodes ∧ statusErrorToCode e = n := by
  rw [statusErrorFromCode] at h
  match hf : statusErrorTable.find? (fun p => p.1 == n) with
  | none =>
    rw [hf] at h
    exact absurd h (by simp)
  | some p =>
    rw [hf] at h
    simp only [Option.map_some', Option.some.injEq] at h
    have hmem := List.mem_of_find?_eq_some hf
    have hp := List.find?_some hf
    have hc := statusErrorTable_coherent p hmem
    have hn : p.1 = n := by simpa using hp
    subst h
    exact ⟨hn ▸ List.mem_map_of_mem (fun q => q.1) hmem, by rw [hc, hn]⟩

theorem statusErrorFromCode_eq_none {n : Nat} (h : n ∉ documentedCodes) :
    statusErrorFromCode n = none := by
  match hf : statusErrorFromCode n with
  | none => rfl
  | some e => exact absurd (statusErrorFromCode_mem hf).1 h

theorem statusErrorFromCode_of_mem {n : Nat} (h : n ∈ documentedCodes) :
    ∃ e, statusErrorFromCode n = some e ∧ statusErrorToCode e = n := by
  rw [documentedCodes] at h
  obtain ⟨p, hp, hfst⟩ := List.mem_map.mp h
  match hf : statusErrorTable.find? (fun q => q.1 == n) with
  | some q =>
    refine ⟨q.2, ?_, ?_⟩
    . rw [statusErrorFromCode, hf]; rfl
    . exact (statusErrorFromCode_mem (by rw [statusErrorFromCode, hf]; rfl)).2
  | none =>
    exfalso
    have := List.find?_eq_none.mp hf p hp
    simp [hfst] at this

theorem statusResultDeserialize_err_code (c : Nat) (e : StatusError) (h0 : c ≠ 0)
    (hc : c < 2 ^ 32) (hf : statusErrorFromCode c = some e) :
    statusResultDeserialize deserializeUnitPayload (be32 c) =
      .ok (StatusResult.Err e, []) := by
  have hp : parseBe32 (be32 c) = some (c, []) := by
    have := parseBe32_be32 c [] hc
    simpa using this
  simp only [statusResultDeserialize, hp, hf]
  rw [if_neg h0]

theorem statusResultDeserialize_unknown_code (c : Nat) (h0 : c ≠ 0)
    (hc : c < 2 ^ 32) (hf : statusErrorFromCode c = none) :
    statusResultDeserialize deserializeUnitPayload (be32 c) =
      .error (.unknownStatus c) := by
  have hp : parseBe32 (be32 c) = some (c, []) := by
    have := parseBe32_be32 c [] hc
    simpa using this
  simp only [statusResultDeserialize, hp, hf]
  rw [if_neg h0]

theorem documentedCodes_bounds :
    ∀ c ∈ documentedCodes, c ≠ 0 ∧ c < 2 ^ 32 := by decide

/-- Claim C6: decoding the 4-byte big-endian encoding of any documented
status code as a `StatusResult` yields `Err` with that same code (in
particular `decode (encode (Err c)) = Err c`), and decoding any nonzero
32-bit value outside the documented set fails with an error carrying the
unknown code. -/
theorem status_code_roundtrip :
    (∀ c ∈ documentedCodes, ∃ e : StatusError,
        statusErrorFromCode c = some e ∧ statusErrorToCode e = c ∧
        statusResultDeserialize deserializeUnitPayload (be32 c) =
          .ok (StatusResult.Err e, []))
    ∧ (∀ e : StatusError,
        statusResultDeserialize deserializeUnitPayload
            (statusResultSerialize serializeUnitPayload (.Err e)) =
          .ok (StatusResult.Err e, []))
    ∧ (∀ n : Nat, n ≠ 0 → n < 2 ^ 32 → n ∉ documentedCodes →
        statusResultDeserialize deserializeUnitPayload (be32 n) =
          .error (.unknownStatus n)) := by
  refine ⟨?_, ?_, ?_⟩
  . intro c hc
    obtain ⟨e, hf, ht⟩ := statusErrorFromCode_of_mem hc
    obtain ⟨h0, hlt⟩ := documentedCodes_bounds c hc
    exact ⟨e, hf, ht, statusResultDeserialize_err_code c e h0 hlt hf⟩
  . intro e
    obtain ⟨h0, hlt⟩ := statusErrorToCode_bounds e
    exact statusResultDeserialize_err_code _ e h0 hlt (statusErrorFromCode_toCode e)
  . intro n h0 hlt hnm
    exact statusResultDeserialize_unknown_code n h0 hlt (statusErrorFromCode_eq_none hnm)

/-- Witness for C6: the documented code 10010 decodes to `Err Denied`, and
the undocumented nonzero code 3 fails with `unknownStatus 3`. -/
theorem status_code_roundtrip_witness :
    ((10010 : Nat) ∈ documentedCodes
      ∧ ∃ e : StatusError,
          statusErrorFromCode 10010 = some e ∧ statusErrorToCode e = 10010 ∧
          statusResultDeserialize deserializeUnitPayload (be32 10010) =
            .ok (StatusResult.Err e, []))
    ∧ ((3 : Nat) ≠ 0 ∧ (3 : Nat) < 2 ^ 32 ∧ (3 : Nat) ∉ documentedCodes
      ∧ statusResultDeserialize deserializeUnitPayload (be32 3) =
          .error (.unknownStatus 3)) :=
  ⟨⟨by decide, status_code_roundtrip.1 10010 (by decide)⟩,
   ⟨by decide, by decide, by decide,
    status_code_roundtrip.2.2 3 (by decide) (by decide) (by decide)⟩⟩

/-! ## C8: LockStatusResult encoding

`LockStatusResult<T>` (src/nfs4/src/lib.rs) serializes `Ok` as a zero
`u32` followed by the payload; `Err { error, denied }` writes the status
code and then, exactly when `error == StatusError::Denied`, the
`LockDenied` payload (`denied.as_ref().unwrap()`).  Deserialization reads
the code and reads a `LockDenied` payload exactly when the code is
`Denied` (10010). -/

/-- Lock types (`LockType`, `#[repr(u32)]` with discriminants 1..4). -/
inductive LockType where
  | Read
  | Write
  | BlockingRead
  | BlockingWrite
  deriving DecidableEq, Repr

/-- Discriminant of each `LockType` variant. -/
def lockTypeToCode : LockType → Nat
  | .Read => 1
  | .Write => 2
  | .BlockingRead => 3
  | .BlockingWrite => 4

/-- Conversion from a discriminant back to a `LockType`. -/
def lockTypeFromCode : Nat → Option LockType
  | 1 => some .Read
  | 2 => some .Write
  | 3 => some .BlockingRead
  | 4 => some .BlockingWrite
  | _ => none

/-- State owner (`StateOwner`): `u64` client id plus opaque owner bytes
(the source field is named after the XDR opaque type). -/
structure StateOwner where
  clientId : Nat
  ownerBytes : List Nat
  deriving DecidableEq, Repr

/-- Payload of a denied lock (`LockDenied`). -/
structure LockDenied where
  offset : Nat
  length : Nat
  lockType : LockType
  owner : StateOwner
  deriving DecidableEq, Repr

/-- XDR variable-length opaque bytes: `u32` length, the bytes, zero
padding to a 4-byte boundary (used for `serde_bytes` fields). -/
def opaqueVar (b : List Nat) : List Nat :=
  be32 b.length ++ b ++ List.replicate ((4 - b.length % 4) % 4) 0

/-- Parse XDR variable-length opaque bytes, consuming the padding. -/
def parseOpaqueVar (s : List Nat) : Option (List Nat × List Nat) :=
  (parseBe32 s).bind fun p =>
    let pad := (4 - p.1 % 4) % 4
    if p.1 + pad ≤ p.2.length then
      some (p.2.take p.1, p.2.drop (p.1 + pad))
    else none

/-- XDR serialization of `LockDenied`: fields in declaration order. -/
def lockDeniedSerialize (d : LockDenied) : List Nat :=
  be64 d.offset ++ be64 d.length ++ be32 (lockTypeToCode d.lockType)
    ++ be64 d.owner.clientId ++ opaqueVar d.owner.ownerBytes

/-- XDR deserialization of `LockDenied`. -/
def lockDeniedDeserialize (s : List Nat) : Option (LockDenied × List Nat) :=
  (parseBe64 s).bind fun o =>
  (parseBe64 o.2).bind fun l =>
  (parseBe32 l.2).bind fun t =>
  (lockTypeFromCode t.1).bind fun lt =>
  (parseBe64 t.2).bind fun c =>
  (parseOpaqueVar c.2).bind fun ob =>
  some (⟨o.1, l.1, lt, ⟨c.1, ob.1⟩⟩, ob.2)

/-- Error-with-optional-payload carried by `LockStatusResult::Err`
(`LockStatusError`). -/
structure LockStatusError where
  error : StatusError
  denied : Option LockDenied
  deriving DecidableEq, Repr

/-- Result type `LockStatusResult<T>`. -/
inductive LockStatusResult (T : Type) where
  | Ok (t : T)
  | Err (e : LockStatusError)
  deriving DecidableEq, Repr

/-- Serialization of `LockStatusResult<T>`.  The `Err` arm writes the
status code and then serializes `denied.as_ref().unwrap()` exactly when
the error is `Denied`; the `unwrap` panic on a missing payload is
modelled by returning `none`. -/
def lockStatusResultSerialize {T : Type} (serT : T → List Nat) :
    LockStatusResult T → Option (List Nat)
  | .Ok t => some (be32 0 ++ serT t)
  | .Err e =>
    if e.error = StatusError.Denied then
      e.denied.map fun d => be32 (statusErrorToCode e.error) ++ lockDeniedSerialize d
    else
      some (be32 (statusErrorToCode e.error))

/-- Deserialization of `LockStatusResult<T>` (its `Visitor::visit_seq`):
read the discriminant; `0` is `Ok` plus payload; otherwise convert the
status code and read a `LockDenied` payload exactly when the code is
`Denied`. -/
def lockStatusResultDeserialize {T : Type} (deserT : List Nat → Option (T × List Nat))
    (s : List Nat) : Except DecodeError (LockStatusResult T × List Nat) :=
  match parseBe32 s with
  | none => .error .truncated
  | some (disc, rest) =>
    if disc = 0 then
      match deserT rest with
      | some (v, rest2) => .ok (.Ok v, rest2)
      | none => .error .expectedValue
    else
      match statusErrorFromCode disc with
      | none => .error (.unknownStatus disc)
      | some err =>
        if err = StatusError.Denied then
          match lockDeniedDeserialize rest with
          | some (d, rest2) => .ok (.Err ⟨err, some d⟩, rest2)
          | none => .error .expectedValue
        else
          .ok (.Err ⟨err, none⟩, rest)

/-- Range validity corresponding to the Rust field types of `LockDenied`
(`u64` offsets and client id, byte-vector length below 2^32). -/
def lockDeniedValid (d : LockDenied) : Prop :=
  d.offset < 2 ^ 64 ∧ d.length < 2 ^ 64 ∧ d.owner.clientId < 2 ^ 64
    ∧ d.owner.ownerBytes.length < 2 ^ 32

instance (d : LockDenied) : Decidable (lockDeniedValid d) := by
  unfold lockDeniedValid
  infer_instance

theorem lockTypeFromCode_toCode (lt : LockType) :
    lockTypeFromCode (lockTypeToCode lt) = some lt := by
  cases lt <;> rfl

theorem parseOpaqueVar_opaqueVar (b : List Nat) (h : b.length < 2 ^ 32)
    (rest : List Nat) :
    parseOpaqueVar (opaqueVar b ++ rest) = some (b, rest) := by
  set pad := List.replicate ((4 - b.length % 4) % 4) 0 with hpad
  have hshape : opaqueVar b ++ rest = be32 b.length ++ ((b ++ pad) ++ rest) := by
    rw [opaqueVar, ← hpad]
    simp [List.append_assoc]
  rw [parseOpaqueVar, hshape, parseBe32_be32 _ _ h]
  have hlen : (b ++ pad).length = b.length + (4 - b.length % 4) % 4 := by
    simp [hpad]
  have hle : b.length + (4 - b.length % 4) % 4 ≤ ((b ++ pad) ++ rest).length := by
    simp only [List.length_append, hpad, List.length_replicate]
    omega
  simp only [Option.some_bind, hle, if_pos]
  rw [List.take_append_of_le_length (by simp [hlen]),
    List.take_left, show b.length + (4 - b.length % 4) % 4 =
      ((b ++ pad) : List Nat).length from hlen.symm, List.drop_left]

theorem lockDeniedDeserialize_serialize (d : LockDenied) (hv : lockDeniedValid d)
    (rest : List Nat) :
    lockDeniedDeserialize (lockDeniedSerialize d ++ rest) = some (d, rest) := by
  obtain ⟨h1, h2, h3, h4⟩ := hv
  have hshape : lockDeniedSerialize d ++ rest =
      be64 d.offset ++ (be64 d.length ++ (be32 (lockTypeToCode d.lockType)
        ++ (be64 d.owner.clientId ++ (opaqueVar d.owner.ownerBytes ++ rest)))) := by
    rw [lockDeniedSerialize]
    simp [List.append_assoc]
  have hlt : lockTypeToCode d.lockType < 2 ^ 32 := by cases d.lockType <;> decide
  rw [lockDeniedDeserialize, hshape, parseBe64_be64 _ _ h1]
  simp only [Option.some_bind]
  rw [parseBe64_be64 _ _ h2]
  simp only [Option.some_bind]
  rw [parseBe32_be32 _ _ hlt]
  simp only [Option.some_bind]
  rw [lockTypeFromCode_toCode]
  simp only [Option.some_bind]
  rw [parseBe64_be64 _ _ h3]
  simp only [Option.some_bind]
  rw [parseOpaqueVar_opaqueVar _ h4]
  simp only [Option.some_bind]

/-- Claim C8: `LockStatusResult` encodes `Ok` as a zero `u32` plus the
payload and `Err` as the status code followed by a `LockDenied` payload
exactly when the code is 10010 (`Denied`); decoding reads the payload
exactly in that case, so encode-then-decode is the identity on well-formed
values. -/
theorem lock_status_roundtrip :
    statusErrorToCode StatusError.Denied = 10010
    ∧ (∀ e : StatusError, statusErrorToCode e = 10010 → e = StatusError.Denied)
    ∧ (lockStatusResultSerialize serializeUnitPayload (.Ok ()) = some (be32 0)
        ∧ lockStatusResultDeserialize deserializeUnitPayload (be32 0) =
            .ok (LockStatusResult.Ok (), []))
    ∧ (∀ d : LockDenied, lockDeniedValid d →
        lockStatusResultSerialize serializeUnitPayload
            (.Err ⟨StatusError.Denied, some d⟩) =
          some (be32 10010 ++ lockDeniedSerialize d)
        ∧ lockStatusResultDeserialize deserializeUnitPayload
            (be32 10010 ++ lockDeniedSerialize d) =
          .ok (LockStatusResult.Err ⟨StatusError.Denied, some d⟩, []))
    ∧ (∀ e : StatusError, e ≠ StatusError.Denied →
        lockStatusResultSerialize serializeUnitPayload (.Err ⟨e, none⟩) =
          some (be32 (statusErrorToCode e))
        ∧ lockStatusResultDeserialize deserializeUnitPayload
            (be32 (statusErrorToCode e)) =
          .ok (LockStatusResult.Err ⟨e, none⟩, [])) := by
  refine ⟨rfl, ?_, ⟨rfl, ?_⟩, ?_, ?_⟩
  . intro e h
    have h1 := statusErrorFromCode_toCode e
    rw [h] at h1
    have h2 : statusErrorFromCode 10010 = some StatusError.Denied := by decide
    rw [h2] at h1
    exact (Option.some.injEq _ _ ▸ h1).symm
  . have hp : parseBe32 (be32 0) = some (0, []) := by
      have := parseBe32_be32 0 [] (by norm_num)
      simpa using this
    simp [lockStatusResultDeserialize, hp, deserializeUnitPayload]
  . intro d hv
    constructor
    . simp [lockStatusResultSerialize, statusErrorToCode]
    . have hp : parseBe32 (be32 10010 ++ lockDeniedSerialize d) =
          some (10010, lockDeniedSerialize d) :=
        parseBe32_be32 10010 _ (by norm_num)
      have hrt : lockDeniedDeserialize (lockDeniedSerialize d ++ []) = some (d, []) :=
        lockDeniedDeserialize_serialize d hv []
      rw [List.append_nil] at hrt
      have hf : statusErrorFromCode 10010 = some StatusError.Denied := by decide
      simp [lockStatusResultDeserialize, hp, hf, hrt]
  . intro e he
    obtain ⟨h0, hlt⟩ := statusErrorToCode_bounds e
    constructor
    . simp [lockStatusResultSerialize, he]
    . have hp : parseBe32 (be32 (statusErrorToCode e)) = some (statusErrorToCode e, []) := by
        have := parseBe32_be32 (statusErrorToCode e) [] hlt
        simpa using this
      have hf := statusErrorFromCode_toCode e
      simp [lockStatusResultDeserialize, hp, hf, h0, he]

/-- Witness for C8 at a concrete denied lock and a concrete non-denied
error. -/
theorem lock_status_roundtrip_witness :
    (lockDeniedValid ⟨5, 9, LockType.Write, ⟨7, [1, 2, 3]⟩⟩
      ∧ (lockStatusResultSerialize serializeUnitPayload
            (.Err ⟨StatusError.Denied, some ⟨5, 9, LockType.Write, ⟨7, [1, 2, 3]⟩⟩⟩) =
          some (be32 10010 ++ lockDeniedSerialize ⟨5, 9, LockType.Write, ⟨7, [1, 2, 3]⟩⟩)
        ∧ lockStatusResultDeserialize deserializeUnitPayload
            (be32 10010 ++ lockDeniedSerialize ⟨5, 9, LockType.Write, ⟨7, [1, 2, 3]⟩⟩) =
          .ok (LockStatusResult.Err
                ⟨StatusError.Denied, some ⟨5, 9, LockType.Write, ⟨7, [1, 2, 3]⟩⟩⟩, [])))
    ∧ (StatusError.NoEnt ≠ StatusError.Denied
      ∧ (lockStatusResultSerialize serializeUnitPayload (.Err ⟨StatusError.NoEnt, none⟩) =
          some (be32 (statusErrorToCode StatusError.NoEnt))
        ∧ lockStatusResultDeserialize deserializeUnitPayload
            (be32 (statusErrorToCode StatusError.NoEnt)) =
          .ok (LockStatusResult.Err ⟨StatusError.NoEnt, none⟩, []))) :=
  ⟨⟨by decide, lock_status_roundtrip.2.2.2.1 ⟨5, 9, LockType.Write, ⟨7, [1, 2, 3]⟩⟩ (by decide)⟩,
   ⟨by decide, lock_status_roundtrip.2.2.2.2 StatusError.NoEnt (by decide)⟩⟩

/-! ## C7: EnumSet bitmap encoding

`EnumSet::to_raw` (src/nfs4/src/enum_map.rs) iterates the BTreeSet (keys
ascending), and for each key `k` resizes the word vector to `k / 32 + 1`
words when needed and sets bit `k % 32` of word `k / 32`.  The embedding
works on the `u32` images of the keys. -/

/-- One step of `EnumSet::to_raw`: resize the word vector when the key's
word index is out of range, then or the key's bit into its word. -/
def addKeyToRaw (map : List Nat) (k : Nat) : List Nat :=
  let index := k / 32
  let map2 :=
    if map.length ≤ index then map ++ List.replicate (index + 1 - map.length) 0 else map
  map2.set index (map2.getD index 0 ||| 1 <<< (k % 32))

/-- `EnumSet::to_raw`: fold every key of the set into the word vector. -/
def enumSetToRaw (s : List Nat) : List Nat :=
  s.foldl addKeyToRaw []

/-- Bit `k` of an encoded bitmap: word `k / 32`, bit position `k % 32`
(LSB is bit 0; missing words read as zero). -/
def rawBit (words : List Nat) (k : Nat) : Bool :=
  (words.getD (k / 32) 0).testBit (k % 32)

theorem addKeyToRaw_length (m : List Nat) (k : Nat) :
    (addKeyToRaw m k).length = max m.length (k / 32 + 1) := by
  simp only [addKeyToRaw, List.length_set]
  by_cases h : m.length ≤ k / 32
  . rw [if_pos h, List.length_append, List.length_replicate]
    omega
  . rw [if_neg h]
    omega

theorem getD_resize (m : List Nat) (i j : Nat) :
    ((if m.length ≤ i then m ++ List.replicate (i + 1 - m.length) 0 else m) : List Nat).getD j 0
      = m.getD j 0 := by
  by_cases h : m.length ≤ i
  . rw [if_pos h]
    simp only [List.getD_eq_getElem?_getD]
    by_cases hj : j < m.length
    . rw [List.getElem?_append_left hj]
    . rw [List.getElem?_append_right (by omega), List.getElem?_eq_none (l := m) (by omega),
        List.getElem?_replicate]
      by_cases hj2 : j - m.length < i + 1 - m.length
      . rw [if_pos hj2]
        rfl
      . rw [if_neg hj2]
  . rw [if_neg h]

theorem rawBit_addKeyToRaw (m : List Nat) (k j : Nat) :
    rawBit (addKeyToRaw m k) j = (rawBit m j || decide (j = k)) := by
  rw [rawBit, rawBit]
  simp only [addKeyToRaw]
  generalize hm2 :
    (if m.length ≤ k / 32 then m ++ List.replicate (k / 32 + 1 - m.length) 0 else m) = m2
  have hgd : ∀ j2, m2.getD j2 0 = m.getD j2 0 := by
    intro j2
    rw [← hm2]
    exact getD_resize m (k / 32) j2
  have hlen : k / 32 < m2.length := by
    rw [← hm2]
    by_cases h : m.length ≤ k / 32
    . rw [if_pos h, List.length_append, List.length_replicate]
      omega
    . rw [if_neg h]
      omega
  have hone : (1 : Nat) <<< (k % 32) = 2 ^ (k % 32) := by rw [Nat.shiftLeft_eq, one_mul]
  by_cases hw : j / 32 = k / 32
  . rw [hw, List.getD_eq_getElem?_getD, List.getElem?_set_self hlen, Option.getD_some,
      Nat.testBit_or, hgd, hone, Nat.testBit_two_pow, ← hw]
    by_cases he : j = k
    . simp [he]
    . have hmm : ¬(k % 32 = j % 32) := by omega
      simp [he, hmm]
  . rw [List.getD_eq_getElem?_getD, List.getElem?_set_ne (by omega : k / 32 ≠ j / 32),
      ← List.getD_eq_getElem?_getD, hgd]
    have hne : ¬(j = k) := by omega
    simp [hne]

theorem rawBit_foldl (s : List Nat) :
    ∀ (acc : List Nat) (j : Nat),
      rawBit (s.foldl addKeyToRaw acc) j = (rawBit acc j || decide (j ∈ s)) := by
  induction s with
  | nil =>
    intro acc j
    simp
  | cons k s ih =>
    intro acc j
    rw [List.foldl_cons, ih, rawBit_addKeyToRaw]
    simp only [List.mem_cons, decide_eq_true_eq]
    by_cases h1 : j = k <;> by_cases h2 : j ∈ s <;> simp [h1, h2]

theorem length_foldl_addKeyToRaw (s : List Nat) :
    ∀ (acc : List Nat),
      (s.foldl addKeyToRaw acc).length = s.foldl (fun a k => max a (k / 32 + 1)) acc.length := by
  induction s with
  | nil =>
    intro acc
    rfl
  | cons k s ih =>
    intro acc
    rw [List.foldl_cons, List.foldl_cons, ih, addKeyToRaw_length]

theorem foldl_wordCount_eq (s : List Nat) :
    ∀ (a : Nat),
      s.foldl (fun x j => max x (j / 32 + 1)) (a / 32 + 1) = s.foldl max a / 32 + 1 := by
  induction s with
  | nil =>
    intro a
    rfl
  | cons j s ih =>
    intro a
    rw [List.foldl_cons, List.foldl_cons,
      show max (a / 32 + 1) (j / 32 + 1) = max a j / 32 + 1 by omega, ih]

/-- Claim C7: the encoded bitmap of a set `S` of attribute-identifier
codes has bit `k` (word `k / 32`, bit `k % 32`, LSB first) set exactly
when `k ∈ S`, and the word count is the minimum number of 32-bit words
containing the highest identifier (zero words for the empty set). -/
theorem enum_set_bitmap :
    (∀ (s : List Nat) (k : Nat), rawBit (enumSetToRaw s) k = true ↔ k ∈ s)
    ∧ enumSetToRaw [] = []
    ∧ (∀ (s : List Nat), s ≠ [] →
        (enumSetToRaw s).length = s.foldl max 0 / 32 + 1) := by
  refine ⟨?_, rfl, ?_⟩
  . intro s k
    rw [enumSetToRaw, rawBit_foldl]
    simp [rawBit]
  . intro s hs
    match s with
    | [] => exact absurd rfl hs
    | k :: s2 =>
      rw [enumSetToRaw, length_foldl_addKeyToRaw, List.length_nil, List.foldl_cons,
        List.foldl_cons, Nat.zero_max, Nat.zero_max]
      exact foldl_wordCount_eq s2 k

/-- Witness for C7 at the concrete identifier set `{3, 70}`. -/
theorem enum_set_bitmap_witness :
    (rawBit (enumSetToRaw [3, 70]) 70 = true ↔ (70 : Nat) ∈ [3, 70])
    ∧ (([3, 70] : List Nat) ≠ []
        ∧ (enumSetToRaw [3, 70]).length = ([3, 70] : List Nat).foldl max 0 / 32 + 1) :=
  ⟨enum_set_bitmap.1 [3, 70] 70,
   ⟨by decide, enum_set_bitmap.2.2 [3, 70] (by decide)⟩⟩

/-! ## C5: EnumMap encode/decode roundtrip

`EnumMap::to_raw` (src/nfs4/src/enum_map.rs) collects the keys into an
`EnumSet` bitmap and concatenates, in ascending key order (BTreeMap
iteration), each value's XDR serialization with its leading 4-byte
discriminant skipped.  `EnumMap::try_from_raw` decodes the key set from
the bitmap in ascending order and, for each key, chains the re-serialized
key discriminant in front of the body cursor and deserializes one full
value.  The value codec itself lives in the external serde_xdr crate and
the derive macro, so the embedding is generic over `serVal`/`deserVal`
exactly as the Rust code is generic over `V: Serialize +
DeserializeOwned`; the roundtrip theorem takes the codec's prefix
properties as hypotheses and the witness instantiates them with a
concrete executable codec. -/

/-- Loop body of `EnumSet::try_from_raw`: iterate candidate bits in
order, inserting each set bit whose key conversion succeeds; a set bit
whose conversion fails aborts with `UnknownKeyValue` (modelled as
`none`).  `keyOk b` models whether `K::try_from(b)` succeeds. -/
def collectKeys (keyOk : Nat → Bool) (words : List Nat) : List Nat → Option (List Nat)
  | [] => some []
  | b :: bs =>
    if rawBit words b then
      if keyOk b then (collectKeys keyOk words bs).map (fun ks => b :: ks)
      else none
    else collectKeys keyOk words bs

/-- `EnumSet::try_from_raw`: scan bits `0 .. len * 32` in ascending
order (BTreeSet insertion preserves this as the iteration order). -/
def enumSetFromRaw (keyOk : Nat → Bool) (words : List Nat) : Option (List Nat) :=
  collectKeys keyOk words (List.range (words.length * 32))

/-- `EnumMap::to_raw`: bitmap of the keys plus the body, the
concatenation in ascending key order of each value's serialization with
the 4-byte discriminant skipped (`skip(4)`). -/
def enumMapToRaw {V : Type} (serVal : V → List Nat) (m : List (Nat × V)) :
    List Nat × List Nat :=
  (enumSetToRaw (m.map Prod.fst), (m.map (fun p => (serVal p.2).drop 4)).flatten)

/-- Body decoding of `EnumMap::try_from_raw`: for each decoded key in
ascending order, chain the re-serialized key discriminant in front of the
body cursor and deserialize one full value from the combination. -/
def decodeEntries {V : Type} (deserVal : List Nat → Option (V × List Nat)) :
    List Nat → List Nat → Option (List (Nat × V))
  | [], _ => some []
  | k :: ks, cursor =>
    match deserVal (be32 k ++ cursor) with
    | some (v, rest) => (decodeEntries deserVal ks rest).map (fun es => (k, v) :: es)
    | none => none

/-- `EnumMap::try_from_raw`: decode the key set from the bitmap, then the
values from the body (unread trailing body bytes are ignored, as in the
source). -/
def enumMapFromRaw {V : Type} (keyOk : Nat → Bool)
    (deserVal : List Nat → Option (V × List Nat)) (raw : List Nat × List Nat) :
    Option (List (Nat × V)) :=
  (enumSetFromRaw keyOk raw.1).bind fun keys => decodeEntries deserVal keys raw.2

/-- Well-formedness of an attribute map as maintained by the source:
entries strictly ascending by key (BTreeMap iteration order) and each
value stored at its own identifier (`FromIterator` inserts at
`v.to_id()`). -/
def enumMapWF {V : Type} (toId : V → Nat) (m : List (Nat × V)) : Prop :=
  List.Chain' (fun p q => p.1 < q.1) m ∧ ∀ p ∈ m, toId p.2 = p.1

theorem rawBit_enumSetToRaw (s : List Nat) (k : Nat) :
    rawBit (enumSetToRaw s) k = decide (k ∈ s) := by
  rw [enumSetToRaw, rawBit_foldl]
  simp [rawBit]

theorem collectKeys_eq_filter (keyOk : Nat → Bool) (words : List Nat) (bs : List Nat)
    (h : ∀ b ∈ bs, rawBit words b = true → keyOk b = true) :
    collectKeys keyOk words bs = some (bs.filter (fun b => rawBit words b)) := by
  induction bs with
  | nil => rfl
  | cons b bs ih =>
    simp only [collectKeys]
    by_cases hb : rawBit words b = true
    . rw [if_pos hb, if_pos (h b (List.mem_cons_self b bs) hb),
        ih (fun x hx hr => h x (List.mem_cons_of_mem b hx) hr)]
      simp [List.filter_cons, hb]
    . rw [if_neg hb, ih (fun x hx hr => h x (List.mem_cons_of_mem b hx) hr)]
      simp [List.filter_cons, hb]

theorem filter_range_eq_of_sorted (keys : List Nat) (N : Nat)
    (hs : List.Chain' (· < ·) keys) (hN : ∀ k ∈ keys, k < N) :
    (List.range N).filter (fun b => decide (b ∈ keys)) = keys := by
  have hpw : List.Pairwise (· < ·) keys := List.chain'_iff_pairwise.mp hs
  have hnd1 : ((List.range N).filter (fun b => decide (b ∈ keys))).Nodup :=
    (List.nodup_range N).filter _
  have hnd2 : keys.Nodup := hpw.imp (fun h => Nat.ne_of_lt h)
  have hmem : ∀ a, a ∈ (List.range N).filter (fun b => decide (b ∈ keys)) ↔ a ∈ keys := by
    intro a
    simp only [List.mem_filter, List.mem_range, decide_eq_true_eq]
    exact ⟨fun h2 => h2.2, fun h2 => ⟨hN a h2, h2⟩⟩
  have hperm := (List.perm_ext_iff_of_nodup hnd1 hnd2).mpr hmem
  exact List.eq_of_perm_of_sorted hperm ((List.pairwise_lt_range N).filter _) hpw

theorem acc_le_foldl_wordCount (s : List Nat) :
    ∀ a : Nat, a ≤ s.foldl (fun x j => max x (j / 32 + 1)) a := by
  induction s with
  | nil => intro a; exact le_refl a
  | cons j s ih =>
    intro a
    rw [List.foldl_cons]
    exact le_trans (le_max_left a (j / 32 + 1)) (ih _)

theorem le_foldl_wordCount (s : List Nat) :
    ∀ (a k : Nat), k ∈ s → k / 32 + 1 ≤ s.foldl (fun x j => max x (j / 32 + 1)) a := by
  induction s with
  | nil => intro a k hk; cases hk
  | cons j s ih =>
    intro a k hk
    rw [List.foldl_cons]
    rcases List.mem_cons.mp hk with h | h
    . subst h
      exact le_trans (le_max_right a (k / 32 + 1)) (acc_le_foldl_wordCount s _)
    . exact ih _ k h

theorem mem_lt_wordCount (keys : List Nat) (k : Nat) (hk : k ∈ keys) :
    k < (enumSetToRaw keys).length * 32 := by
  rw [enumSetToRaw, length_foldl_addKeyToRaw, List.length_nil]
  have := le_foldl_wordCount keys 0 k hk
  omega

theorem enumSetFromRaw_toRaw (keyOk : Nat → Bool) (keys : List Nat)
    (hs : List.Chain' (· < ·) keys) (hok : ∀ k ∈ keys, keyOk k = true) :
    enumSetFromRaw keyOk (enumSetToRaw keys) = some keys := by
  rw [enumSetFromRaw]
  rw [collectKeys_eq_filter keyOk _ _ (fun b _ hr => by
    rw [rawBit_enumSetToRaw] at hr
    exact hok b (of_decide_eq_true hr))]
  congr 1
  rw [List.filter_congr (fun b _ => rawBit_enumSetToRaw keys b)]
  exact filter_range_eq_of_sorted keys _ hs (fun k hk => mem_lt_wordCount keys k hk)

theorem decodeEntries_body {V : Type} (toId : V → Nat)
    (serVal : V → List Nat) (deserVal : List Nat → Option (V × List Nat))
    (hser : ∀ (v : V) (rest : List Nat), deserVal (serVal v ++ rest) = some (v, rest))
    (hdisc : ∀ v : V, (serVal v).take 4 = be32 (toId v)) :
    ∀ (m : List (Nat × V)), (∀ p ∈ m, toId p.2 = p.1) →
      ∀ tail, decodeEntries deserVal (m.map Prod.fst)
        ((m.map (fun p => (serVal p.2).drop 4)).flatten ++ tail) = some m := by
  intro m
  induction m with
  | nil =>
    intro _ tail
    rfl
  | cons p m ih =>
    intro hco tail
    obtain ⟨k, v⟩ := p
    have hk : toId v = k := hco (k, v) (List.mem_cons_self _ _)
    simp only [List.map_cons, List.flatten_cons, decodeEntries, List.append_assoc]
    have harg : be32 k ++ ((serVal v).drop 4 ++ ((m.map (fun p => (serVal p.2).drop 4)).flatten ++ tail))
        = serVal v ++ ((m.map (fun p => (serVal p.2).drop 4)).flatten ++ tail) := by
      rw [← List.append_assoc, ← hk, ← hdisc v, List.take_append_drop]
    rw [harg, hser]
    show Option.map (fun es => (k, v) :: es)
        (decodeEntries deserVal (m.map Prod.fst)
          ((m.map (fun p => (serVal p.2).drop 4)).flatten ++ tail)) = some ((k, v) :: m)
    rw [ih (fun q hq => hco q (List.mem_cons_of_mem _ hq)) tail]
    rfl

theorem decodeEntries_keys {V : Type} (deserVal : List Nat → Option (V × List Nat)) :
    ∀ (ks : List Nat) (cursor : List Nat) (res : List (Nat × V)),
      decodeEntries deserVal ks cursor = some res → res.map Prod.fst = ks := by
  intro ks
  induction ks with
  | nil =>
    intro cursor res h
    simp only [decodeEntries, Option.some.injEq] at h
    rw [← h]
    rfl
  | cons k ks ih =>
    intro cursor res h
    simp only [decodeEntries] at h
    match hd : deserVal (be32 k ++ cursor) with
    | none => rw [hd] at h; exact absurd h (by simp)
    | some (v, rest) =>
      rw [hd] at h
      have h2 : Option.map (fun es => (k, v) :: es) (decodeEntries deserVal ks rest) =
          some res := h
      match hrec : decodeEntries deserVal ks rest with
      | none => rw [hrec] at h2; exact absurd h2 (by simp)
      | some es =>
        rw [hrec] at h2
        simp only [Option.map_some', Option.some.injEq] at h2
        rw [← h2, List.map_cons, ih rest es hrec]

theorem collectKeys_sublist (keyOk : Nat → Bool) (words : List Nat) :
    ∀ (bs ks : List Nat), collectKeys keyOk words bs = some ks → ks.Sublist bs := by
  intro bs
  induction bs with
  | nil =>
    intro ks h
    simp only [collectKeys, Option.some.injEq] at h
    rw [← h]
  | cons b bs ih =>
    intro ks h
    simp only [collectKeys] at h
    by_cases hb : rawBit words b = true
    . rw [if_pos hb] at h
      by_cases hk : keyOk b = true
      . rw [if_pos hk] at h
        match hrec : collectKeys keyOk words bs with
        | none => rw [hrec] at h; exact absurd h (by simp)
        | some ks2 =>
          rw [hrec] at h
          simp only [Option.map_some', Option.some.injEq] at h
          rw [← h]
          exact (ih ks2 hrec).cons₂ b
      . rw [if_neg hk] at h
        exact absurd h (by simp)
    . rw [if_neg hb] at h
      exact (ih ks h).cons b

theorem enumMapFromRaw_keys_sorted {V : Type} (keyOk : Nat → Bool)
    (deserVal : List Nat → Option (V × List Nat)) (raw : List Nat × List Nat)
    (res : List (Nat × V)) (h : enumMapFromRaw keyOk deserVal raw = some res) :
    List.Chain' (· < ·) (res.map Prod.fst) := by
  rw [enumMapFromRaw] at h
  match hks : enumSetFromRaw keyOk raw.1 with
  | none => rw [hks] at h; exact absurd h (by simp)
  | some keys =>
    rw [hks] at h
    simp only [Option.some_bind] at h
    rw [decodeEntries_keys deserVal keys raw.2 res h]
    rw [enumSetFromRaw] at hks
    have hsub := collectKeys_sublist keyOk raw.1 _ keys hks
    exact List.chain'_iff_pairwise.mpr ((List.pairwise_lt_range _).sublist hsub)

/-- Claim C5: for every attribute map `m` (keys strictly ascending, each
value matching its key, all keys known) and every value codec with the
XDR prefix properties the derive macro provides, decoding the encoding of
`m` yields `m` again; iteration (and hence the encoded body) is in
ascending identifier order, and every decoded map is likewise ascending. -/
theorem enum_map_roundtrip {V : Type} (toId : V → Nat) (serVal : V → List Nat)
    (deserVal : List Nat → Option (V × List Nat)) (keyOk : Nat → Bool)
    (hser : ∀ (v : V) (rest : List Nat), deserVal (serVal v ++ rest) = some (v, rest))
    (hdisc : ∀ v : V, (serVal v).take 4 = be32 (toId v))
    (m : List (Nat × V)) (hwf : enumMapWF toId m) (hok : ∀ p ∈ m, keyOk p.1 = true) :
    enumMapFromRaw keyOk deserVal (enumMapToRaw serVal m) = some m
    ∧ List.Chain' (· < ·) (m.map Prod.fst)
    ∧ (∀ (raw : List Nat × List Nat) (res : List (Nat × V)),
        enumMapFromRaw keyOk deserVal raw = some res →
        List.Chain' (· < ·) (res.map Prod.fst)) := by
  obtain ⟨hsort, hco⟩ := hwf
  have hkeys : List.Chain' (· < ·) (m.map Prod.fst) :=
    (List.chain'_map Prod.fst).mpr hsort
  refine ⟨?_, hkeys, fun raw res h => enumMapFromRaw_keys_sorted keyOk deserVal raw res h⟩
  rw [enumMapFromRaw, enumMapToRaw]
  rw [enumSetFromRaw_toRaw keyOk _ hkeys (by
    intro k hk
    obtain ⟨p, hp, hfst⟩ := List.mem_map.mp hk
    rw [← hfst]
    exact hok p hp)]
  simp only [Option.some_bind]
  have := decodeEntries_body toId serVal deserVal hser hdisc m hco []
  rw [List.append_nil] at this
  exact this

/-- A concrete executable value codec for the witness: two values with
identifiers 7 and 9, each serialized as its discriminant followed by one
payload word. -/
def toyToId : Bool → Nat
  | true => 7
  | false => 9

/-- Witness codec serialization: discriminant then one payload word. -/
def toySer (b : Bool) : List Nat :=
  be32 (toyToId b) ++ be32 99

/-- Witness codec deserialization: read the discriminant, dispatch on it,
consume the payload word. -/
def toyDeser (s : List Nat) : Option (Bool × List Nat) :=
  (parseBe32 s).bind fun p =>
  (parseBe32 p.2).bind fun q =>
  if p.1 = 7 then some (true, q.2)
  else if p.1 = 9 then some (false, q.2)
  else none

theorem toyDeser_toySer (b : Bool) (rest : List Nat) :
    toyDeser (toySer b ++ rest) = some (b, rest) := by
  cases b
  . have hsh : toySer false ++ rest = be32 9 ++ (be32 99 ++ rest) := by
      rw [toySer, toyToId, List.append_assoc]
    rw [toyDeser, hsh, parseBe32_be32 _ _ (by norm_num)]
    simp only [Option.some_bind]
    rw [parseBe32_be32 _ _ (by norm_num)]
    simp
  . have hsh : toySer true ++ rest = be32 7 ++ (be32 99 ++ rest) := by
      rw [toySer, toyToId, List.append_assoc]
    rw [toyDeser, hsh, parseBe32_be32 _ _ (by norm_num)]
    simp only [Option.some_bind]
    rw [parseBe32_be32 _ _ (by norm_num)]
    simp

/-- Witness for C5 at the two-entry map `{7 ↦ true, 9 ↦ false}` with the
concrete codec. -/
theorem enum_map_roundtrip_witness :
    enumMapWF toyToId [(7, true), (9, false)]
    ∧ (enumMapFromRaw (fun _ => true) toyDeser
          (enumMapToRaw toySer [(7, true), (9, false)]) = some [(7, true), (9, false)]
        ∧ List.Chain' (· < ·) ([(7, true), (9, false)].map Prod.fst)
        ∧ (∀ (raw : List Nat × List Nat) (res : List (Nat × Bool)),
            enumMapFromRaw (fun _ => true) toyDeser raw = some res →
            List.Chain' (· < ·) (res.map Prod.fst))) :=
  ⟨⟨by simp [List.chain'_cons], by decide⟩,
   enum_map_roundtrip toyToId toySer toyDeser (fun _ => true)
     toyDeser_toySer (fun v => by cases v <;> rfl)
     [(7, true), (9, false)] ⟨by simp [List.chain'_cons], by decide⟩ (fun p _ => rfl)⟩

/-! ## C3: COMPOUND reply correlation

The engine (src/nfs4_client/src/lib.rs) builds a request from primitive
ops composed by tuples, `Vec`s and `ReturnSecond`; `process_reply` pops
response ops from the front of a `VecDeque`, failing with
`CompoundResponseMismatch` when the queue is empty ("too few replies") or
the popped variant differs from the expected one, and surfacing the op's
own status otherwise.  `ClientWithoutSession::do_compound` returns the
overall reply status as an error without matching ops when it is `Err`,
and treats a non-empty queue after matching as a trailing-response
mismatch. -/

/-- Operation identifiers (`OperationId`, `#[repr(u32)]`, codes 3..58
with gaps) naming each COMPOUND op variant. -/
inductive OperationId where
  | Access
  | Close
  | Commit
  | Create
  | DelegPurge
  | DelegReturn
  | GetAttr
  | GetFh
  | Link
  | Lock
  | LockT
  | LockU
  | LookUp
  | LookUpP
  | NVerify
  | Open
  | OpenAttr
  | OpenDowngrade
  | PutFh
  | PutPubFh
  | PutRootFh
  | Read
  | ReadDir
  | ReadLink
  | Remove
  | Rename
  | RestoreFh
  | SaveFh
  | SecInfo
  | SetAttr
  | Verify
  | Write
  | BackchannelCtl
  | BindConnToSession
  | ExchangeId
  | CreateSession
  | DestroySession
  | FreeStateid
  | GetDirDelegation
  | GetDeviceInfo
  | GetDeviceList
  | LayoutCommit
  | LayoutGet
  | LayoutReturn
  | SecInfoNoName
  | Sequence
  | SetSsv
  | TestStateId
  | WantDelegation
  | DestroyClientId
  | ReclaimComplete
  deriving DecidableEq, Repr

/-- Numeric wire code of each operation (the explicit discriminants). -/
def operationIdToCode : OperationId → Nat
  | .Access => 3
  | .Close => 4
  | .Commit => 5
  | .Create => 6
  | .DelegPurge => 7
  | .DelegReturn => 8
  | .GetAttr => 9
  | .GetFh => 10
  | .Link => 11
  | .Lock => 12
  | .LockT => 13
  | .LockU => 14
  | .LookUp => 15
  | .LookUpP => 16
  | .NVerify => 17
  | .Open => 18
  | .OpenAttr => 19
  | .OpenDowngrade => 21
  | .PutFh => 22
  | .PutPubFh => 23
  | .PutRootFh => 24
  | .Read => 25
  | .ReadDir => 26
  | .ReadLink => 27
  | .Remove => 28
  | .Rename => 29
  | .RestoreFh => 31
  | .SaveFh => 32
  | .SecInfo => 33
  | .SetAttr => 34
  | .Verify => 37
  | .Write => 38
  | .BackchannelCtl => 40
  | .BindConnToSession => 41
  | .ExchangeId => 42
  | .CreateSession => 43
  | .DestroySession => 44
  | .FreeStateid => 45
  | .GetDirDelegation => 46
  | .GetDeviceInfo => 47
  | .GetDeviceList => 48
  | .LayoutCommit => 49
  | .LayoutGet => 50
  | .LayoutReturn => 51
  | .SecInfoNoName => 52
  | .Sequence => 53
  | .SetSsv => 54
  | .TestStateId => 55
  | .WantDelegation => 56
  | .DestroyClientId => 57
  | .ReclaimComplete => 58

/-- One response op (`ResOp`), abstracted to its variant tag and its own
status: the engine's control flow depends only on those.  Ops whose
results carry `LockStatusResult` surface `Error::Lock` rather than
`Error::Protocol`; the model does not distinguish the two error kinds. -/
structure ResOpM where
  tag : OperationId
  status : StatusResult Unit
  deriving DecidableEq, Repr

/-- The client error type (`Error` in src/nfs4_client/src/lib.rs); the
`String` message of `CompoundResponseMismatch` and the payloads of the
transport variants are elided. -/
inductive ErrorM where
  | SunRpc
  | Protocol (e : StatusError)
  | Lock (e : LockStatusError)
  | IoFailure
  | CompoundResponseMismatch
  deriving DecidableEq, Repr

/-- Shape of a composed COMPOUND request: primitives (`compound_op_impl_`
instances), tuples (`tuple_impls`), `ReturnSecond`, and `Vec`
compositions. -/
inductive ReqShape where
  | prim (tag : OperationId)
  | pair (a b : ReqShape)
  | returnSecond (a b : ReqShape)
  | listOf (rs : List ReqShape)

mutual

/-- Tags of the ops a composed request appends (`into_arg_array`):
a primitive appends itself; compositions emit their children in order. -/
def expectedTags : ReqShape → List OperationId
  | .prim t => [t]
  | .pair a b => expectedTags a ++ expectedTags b
  | .returnSecond a b => expectedTags a ++ expectedTags b
  | .listOf rs => expectedTagsList rs

/-- Tags of a `Vec` of requests, flattened in order. -/
def expectedTagsList : List ReqShape → List OperationId
  | [] => []
  | r :: rs => expectedTags r ++ expectedTagsList rs

end

mutual

/-- `process_reply` of a composed request: a primitive pops the front of
the reply queue (`CompoundResponseMismatch` when empty), checks the
popped op's variant against its own (`CompoundResponseMismatch` on
disagreement), and surfaces the op's own status (`TempResult`);
compositions process their children in order.  Returns the remaining
queue. -/
def processReply : ReqShape → List ResOpM → Except ErrorM (List ResOpM)
  | .prim t, q =>
    match q with
    | [] => .error .CompoundResponseMismatch
    | op :: rest =>
      if op.tag = t then
        match op.status with
        | .Ok _ => .ok rest
        | .Err e => .error (.Protocol e)
      else .error .CompoundResponseMismatch
  | .pair a b, q => (processReply a q).bind (processReply b)
  | .returnSecond a b, q => (processReply a q).bind (processReply b)
  | .listOf rs, q => processReplyList rs q

/-- `process_reply` of a `Vec` of requests, in order. -/
def processReplyList : List ReqShape → List ResOpM → Except ErrorM (List ResOpM)
  | [], q => .ok q
  | r :: rs, q => (processReply r q).bind (processReplyList rs)

end

/-- Reply handling of `ClientWithoutSession::do_compound` after the RPC
exchange: an overall `Err` status is returned as a protocol error without
matching any op; otherwise ops are matched and a non-empty leftover queue
is a trailing-response `CompoundResponseMismatch`. -/
def doCompound (status : StatusResult Unit) (req : ReqShape)
    (resArray : List ResOpM) : Except ErrorM Unit :=
  match status with
  | .Err e => .error (.Protocol e)
  | .Ok _ =>
    match processReply req resArray with
    | .error e => .error e
    | .ok rest => if rest = [] then .ok () else .error .CompoundResponseMismatch

/-- Specification-level correlation walk, phrased from the spec: pop
response ops from the front, matching each against the next expected
variant; a missing op or variant mismatch is fatal, and an op carrying an
error status surfaces that error. -/
def walkTags : List OperationId → List ResOpM → Except ErrorM (List ResOpM)
  | [], q => .ok q
  | _ :: _, [] => .error .CompoundResponseMismatch
  | t :: ts, op :: q =>
    if op.tag = t then
      match op.status with
      | .Ok _ => walkTags ts q
      | .Err e => .error (.Protocol e)
    else .error .CompoundResponseMismatch

theorem walkTags_append (ts1 ts2 : List OperationId) :
    ∀ q, walkTags (ts1 ++ ts2) q = (walkTags ts1 q).bind (walkTags ts2) := by
  induction ts1 with
  | nil =>
    intro q
    rfl
  | cons t ts ih =>
    intro q
    match q with
    | [] => rfl
    | op :: q2 =>
      simp only [List.cons_append, walkTags]
      by_cases ht : op.tag = t
      . rw [if_pos ht, if_pos ht]
        cases op.status with
        | Ok u => exact ih q2
        | Err e => rfl
      . rw [if_neg ht, if_neg ht]
        rfl

mutual

theorem processReply_eq_walkTags :
    ∀ (r : ReqShape) (q : List ResOpM), processReply r q = walkTags (expectedTags r) q
  | .prim t, q => by
    cases q with
    | nil => rfl
    | cons op rest => rfl
  | .pair a b, q => by
    rw [processReply, expectedTags, walkTags_append, processReply_eq_walkTags a q]
    cases walkTags (expectedTags a) q with
    | error e => rfl
    | ok q2 => exact processReply_eq_walkTags b q2
  | .returnSecond a b, q => by
    rw [processReply, expectedTags, walkTags_append, processReply_eq_walkTags a q]
    cases walkTags (expectedTags a) q with
    | error e => rfl
    | ok q2 => exact processReply_eq_walkTags b q2
  | .listOf rs, q => by
    rw [processReply, expectedTags]
    exact processReplyList_eq_walkTags rs q

theorem processReplyList_eq_walkTags :
    ∀ (rs : List ReqShape) (q : List ResOpM),
      processReplyList rs q = walkTags (expectedTagsList rs) q
  | [], q => by rfl
  | r :: rs, q => by
    rw [processReplyList, expectedTagsList, walkTags_append, processReply_eq_walkTags r q]
    cases walkTags (expectedTags r) q with
    | error e => rfl
    | ok q2 => exact processReplyList_eq_walkTags rs q2

end

theorem walkTags_ok_characterization :
    ∀ (ts : List OperationId) (q rest : List ResOpM),
      walkTags ts q = .ok rest →
      ∃ pre, q = pre ++ rest ∧ pre.map ResOpM.tag = ts
        ∧ ∀ op ∈ pre, op.status = .Ok () := by
  intro ts
  induction ts with
  | nil =>
    intro q rest h
    simp only [walkTags, Except.ok.injEq] at h
    exact ⟨[], by rw [List.nil_append, h], rfl, by simp⟩
  | cons t ts ih =>
    intro q rest h
    match q with
    | [] =>
      simp only [walkTags] at h
      exact absurd h (by simp)
    | op :: q2 =>
      simp only [walkTags] at h
      by_cases ht : op.tag = t
      . rw [if_pos ht] at h
        cases hs : op.status with
        | Ok u =>
          rw [hs] at h
          obtain ⟨pre, hq, htags, hok⟩ := ih q2 rest h
          refine ⟨op :: pre, by rw [List.cons_append, ← hq], ?_, ?_⟩
          . rw [List.map_cons, htags, ht]
          . intro x hx
            rcases List.mem_cons.mp hx with h1 | h1
            . rw [h1, hs]
            . exact hok x h1
        | Err e =>
          rw [hs] at h
          exact absurd h (by simp)
      . rw [if_neg ht] at h
        exact absurd h (by simp)

/-- Claim C3: for every composed COMPOUND request and every reply op
array, reply ops are consumed from the front in order; a popped op of the
wrong variant, a queue that runs out early, or ops remaining after all
expected ops are consumed yield `CompoundResponseMismatch`; and an
overall `Err` reply status is returned without matching any op. -/
theorem compound_reply_correlation :
    (∀ (e : StatusError) (req : ReqShape) (q : List ResOpM),
        doCompound (.Err e) req q = .error (.Protocol e))
    ∧ (∀ (req : ReqShape) (q : List ResOpM),
        processReply req q = walkTags (expectedTags req) q)
    ∧ (∀ (req : ReqShape) (q rest : List ResOpM), processReply req q = .ok rest →
        ∃ pre, q = pre ++ rest ∧ pre.map ResOpM.tag = expectedTags req
          ∧ ∀ op ∈ pre, op.status = .Ok ())
    ∧ (∀ (req : ReqShape) (q rest : List ResOpM),
        processReply req q = .ok rest → rest ≠ [] →
        doCompound (.Ok ()) req q = .error .CompoundResponseMismatch)
    ∧ (∀ (req : ReqShape) (q : List ResOpM),
        processReply req q = .ok [] → doCompound (.Ok ()) req q = .ok ()) := by
  refine ⟨fun e req q => rfl, processReply_eq_walkTags, ?_, ?_, ?_⟩
  . intro req q rest h
    rw [processReply_eq_walkTags req q] at h
    exact walkTags_ok_characterization (expectedTags req) q rest h
  . intro req q rest h hne
    simp only [doCompound, h]
    rw [if_neg hne]
  . intro req q h
    simp only [doCompound, h]
    simp

/-- Witness for C3 at a concrete two-op request and matching reply. -/
theorem compound_reply_correlation_witness :
    processReply (.returnSecond (.prim .PutFh) (.prim .GetAttr))
        [⟨.PutFh, .Ok ()⟩, ⟨.GetAttr, .Ok ()⟩] = .ok []
    ∧ (∃ pre,
        ([⟨.PutFh, .Ok ()⟩, ⟨.GetAttr, .Ok ()⟩] : List ResOpM) = pre ++ []
        ∧ pre.map ResOpM.tag =
            expectedTags (.returnSecond (.prim .PutFh) (.prim .GetAttr))
        ∧ ∀ op ∈ pre, op.status = .Ok ())
    ∧ doCompound (.Ok ()) (.returnSecond (.prim .PutFh) (.prim .GetAttr))
        [⟨.PutFh, .Ok ()⟩, ⟨.GetAttr, .Ok ()⟩] = .ok () := by
  have hpr : processReply (.returnSecond (.prim .PutFh) (.prim .GetAttr))
      [⟨.PutFh, .Ok ()⟩, ⟨.GetAttr, .Ok ()⟩] = .ok [] := by
    rfl
  exact ⟨hpr, compound_reply_correlation.2.2.1 _ _ [] hpr,
    compound_reply_correlation.2.2.2.2 _ _ hpr⟩

/-! ## C2: remove / rename / set_attr client methods (spec-modelled)

`Client::remove`, `Client::rename` and `Client::set_attr` are not present
in src/nfs4_client/src/lib.rs; only the integration tests
(src/nfs4_client/tests/integration_test.rs) and the CLI
(src/cli/src/bin/nfs4.rs) call them, so the op arrays they emit are
modelled from the spec's words. -/

/-- A file handle (`FileHandle`): opaque server-assigned bytes. -/
def FileHandle := List Nat

/-- Ops appearing in the three simple filesystem methods, with their
payloads (`ArgOp` restricted to the variants these methods emit); the
`SetAttr` attribute map is carried abstractly. -/
inductive FsOp (A : Type) where
  | PutFh (object : FileHandle)
  | SaveFh
  | Remove (target : String)
  | Rename (oldName newName : String)
  | SetAttr (attrs : A)

/-- Operation tag of each emitted op. -/
def FsOp.opId {A : Type} : FsOp A → OperationId
  | .PutFh _ => .PutFh
  | .SaveFh => .SaveFh
  | .Remove _ => .Remove
  | .Rename _ _ => .Rename
  | .SetAttr _ => .SetAttr

/-- Whether an op is a handle-carrying prologue op (`PutFh`/`SaveFh`)
rather than the method's single substantive operation. -/
def FsOp.isPrologue {A : Type} : FsOp A → Bool
  | .PutFh _ => true
  | .SaveFh => true
  | _ => false

/-- Modelled from the spec: `Client::remove(parent, name)` is missing
from src/nfs4_client/src/lib.rs; per the spec it issues the single-op
COMPOUND `Remove` prefixed with `PutFh` on the parent handle. -/
def clientRemoveOps (A : Type) (parent : FileHandle) (name : String) : List (FsOp A) :=
  [.PutFh parent, .Remove name]

/-- Modelled from the spec: `Client::rename(src_parent, dst_parent, old,
new)` is missing from src/nfs4_client/src/lib.rs; per the spec it issues
the single-op COMPOUND `Rename` prefixed with `PutFh` and `SaveFh` to
carry the two directory handles (source directory saved, target
directory current). -/
def clientRenameOps (A : Type) (srcParent dstParent : FileHandle)
    (oldName newName : String) : List (FsOp A) :=
  [.PutFh srcParent, .SaveFh, .PutFh dstParent, .Rename oldName newName]

/-- Modelled from the spec: `Client::set_attr(handle, attrs)` is missing
from src/nfs4_client/src/lib.rs; per the spec it issues the single-op
COMPOUND `SetAttr` prefixed with `PutFh` on the handle. -/
def clientSetAttrOps (A : Type) (handle : FileHandle) (attrs : A) : List (FsOp A) :=
  [.PutFh handle, .SetAttr attrs]

/-- Claim C2 (spec-modelled): each of `remove`, `rename` and `set_attr`
issues a COMPOUND holding exactly one substantive op — `Remove`,
`Rename`, `SetAttr` with the caller's arguments — preceded only by
`PutFh` prologue ops (plus `SaveFh` for `rename` to carry two handles),
starting with `PutFh` on the (source) handle. -/
theorem client_simple_methods (A : Type) (parent srcParent dstParent handle : FileHandle)
    (name oldName newName : String) (attrs : A) :
    (clientRemoveOps A parent name).filter (fun op => !op.isPrologue) = [.Remove name]
    ∧ (clientRemoveOps A parent name).map FsOp.opId = [.PutFh, .Remove]
    ∧ (clientRemoveOps A parent name).head? = some (.PutFh parent)
    ∧ (clientRenameOps A srcParent dstParent oldName newName).filter
        (fun op => !op.isPrologue) = [.Rename oldName newName]
    ∧ (clientRenameOps A srcParent dstParent oldName newName).map FsOp.opId =
        [.PutFh, .SaveFh, .PutFh, .Rename]
    ∧ (clientRenameOps A srcParent dstParent oldName newName).head? =
        some (.PutFh srcParent)
    ∧ (clientSetAttrOps A handle attrs).filter (fun op => !op.isPrologue) =
        [.SetAttr attrs]
    ∧ (clientSetAttrOps A handle attrs).map FsOp.opId = [.PutFh, .SetAttr]
    ∧ (clientSetAttrOps A handle attrs).head? = some (.PutFh handle) :=
  ⟨rfl, rfl, rfl, rfl, rfl, rfl, rfl, rfl, rfl⟩

/-! ## C4: per-compound Sequence op and the session sequence counter

`Client::do_compound` (src/nfs4_client/src/lib.rs lines 461..482) builds
a `SequenceArgs` with the stored session id, the current sequence id,
slot 0, highest slot 0, `cache_this: false`; then calls
`self.sequence_id.incr()` (a wrapping-modelled `u32` increment) before
sending `ReturnSecond(sequence, args)`, whose arg array is the `Sequence`
op followed by the user's ops. -/

/-- `SequenceArgs` as built by `Client::do_compound`. -/
structure SequenceArgsM where
  sessionId : List Nat
  sequenceId : Nat
  slotId : Nat
  highestSlotId : Nat
  cacheThis : Bool
  deriving DecidableEq, Repr

/-- An op of an emitted array: the prepended `Sequence` op or one of the
user's ops (abstracted). -/
inductive SessionOp (U : Type) where
  | Sequence (args : SequenceArgsM)
  | UserOp (op : U)

/-- The session state `Client` mutates per call: stored session id and
the `u32` sequence counter. -/
structure ClientStateM where
  sessionId : List Nat
  sequenceId : Nat

/-- `Client::do_compound`: returns the emitted op array (a `Sequence` op
carrying the current counter, then the user ops) and the state with the
counter incremented once, before the send. -/
def clientDoCompound {U : Type} (st : ClientStateM) (userOps : List U) :
    List (SessionOp U) × ClientStateM :=
  (SessionOp.Sequence ⟨st.sessionId, st.sequenceId, 0, 0, false⟩
      :: userOps.map SessionOp.UserOp,
   ⟨st.sessionId, (st.sequenceId + 1) % 2 ^ 32⟩)

/-- Issue a sequence of user COMPOUNDs in order, collecting every emitted
op array and the final state. -/
def runCompounds {U : Type} (st : ClientStateM) :
    List (List U) → List (List (SessionOp U)) × ClientStateM
  | [] => ([], st)
  | ops :: rest =>
    let one := clientDoCompound st ops
    let further := runCompounds one.2 rest
    (one.1 :: further.1, further.2)

/-- Claim C4: over `n` user COMPOUNDs (with no `u32` wraparound), each
emitted op array begins with exactly one prepended `Sequence` op carrying
the stored session id, the counter value current at that call, slot 0,
highest slot 0 and `cache_this = false`, followed by the user ops; and
the stored counter ends at its initial value plus exactly `n`. -/
theorem session_sequence_counter {U : Type} (st : ClientStateM) (reqs : List (List U))
    (hno : st.sequenceId + reqs.length < 2 ^ 32) :
    (runCompounds st reqs).2.sequenceId = st.sequenceId + reqs.length
    ∧ (runCompounds st reqs).2.sessionId = st.sessionId
    ∧ (runCompounds st reqs).1.length = reqs.length
    ∧ ∀ i, i < reqs.length →
        (runCompounds st reqs).1.getD i [] =
          SessionOp.Sequence ⟨st.sessionId, st.sequenceId + i, 0, 0, false⟩
            :: (reqs.getD i []).map SessionOp.UserOp := by
  induction reqs generalizing st with
  | nil =>
    refine ⟨by simp [runCompounds], by simp [runCompounds], by simp [runCompounds], ?_⟩
    intro i hi
    exact absurd hi (by simp)
  | cons ops rest ih =>
    have hmod : (st.sequenceId + 1) % 2 ^ 32 = st.sequenceId + 1 := by
      apply Nat.mod_eq_of_lt
      simp only [List.length_cons] at hno
      omega
    have hno2 : st.sequenceId + 1 + rest.length < 2 ^ 32 := by
      simp only [List.length_cons] at hno
      omega
    have ih2 := ih ⟨st.sessionId, st.sequenceId + 1⟩ (by simpa using hno2)
    obtain ⟨hc, hs, hl, he⟩ := ih2
    refine ⟨?_, ?_, ?_, ?_⟩
    . simp only [runCompounds, clientDoCompound, hmod]
      rw [hc]
      simp only [List.length_cons]
      omega
    . simp only [runCompounds, clientDoCompound, hmod]
      exact hs
    . simp only [runCompounds, clientDoCompound, List.length_cons, hmod]
      rw [hl]
    . intro i hi
      match i with
      | 0 =>
        simp [runCompounds, clientDoCompound]
      | Nat.succ j =>
        have hj : j < rest.length := by
          simp only [List.length_cons] at hi
          omega
        have := he j hj
        simp only [runCompounds, clientDoCompound, hmod, List.getD_cons_succ]
        rw [this]
        have : st.sequenceId + 1 + j = st.sequenceId + (j + 1) := by omega
        rw [this]

/-- Witness for C4: two COMPOUNDs advance the counter from 5 to 7, each
with its own `Sequence` header. -/
theorem session_sequence_counter_witness :
    (5 : Nat) + ([[1], [2, 3]] : List (List Nat)).length < 2 ^ 32
    ∧ ((runCompounds ⟨[9], 5⟩ [[1], [2, 3]]).2.sequenceId =
          5 + ([[1], [2, 3]] : List (List Nat)).length
        ∧ (runCompounds (⟨[9], 5⟩ : ClientStateM) [[1], [2, 3]]).2.sessionId = [9]
        ∧ (runCompounds (⟨[9], 5⟩ : ClientStateM) [[1], [2, 3]]).1.length =
            ([[1], [2, 3]] : List (List Nat)).length
        ∧ ∀ i, i < ([[1], [2, 3]] : List (List Nat)).length →
            (runCompounds (⟨[9], 5⟩ : ClientStateM) [[1], [2, 3]]).1.getD i [] =
              SessionOp.Sequence ⟨[9], 5 + i, 0, 0, false⟩
                :: (([[1], [2, 3]] : List (List Nat)).getD i []).map SessionOp.UserOp) :=
  ⟨by norm_num, session_sequence_counter ⟨[9], 5⟩ [[1], [2, 3]] (by norm_num)⟩

/-! ## C1: write_all short-write offset handling

`Client::write_all` (src/nfs4_client/src/lib.rs lines 601..625) reads up
to `max_write` bytes from the source, then loops

```text
while buf.len() > 0 {
    let write_res = self.write(transport, handle.clone(), offset, buf.clone())?;
    buf = buf[write_res.count as usize..].to_owned();
}
offset += amount_read as u64;
```

`offset` is not advanced inside the retry loop, so after a short write
the unwritten suffix is re-sent at the same offset. -/

/-- Inner retry loop of `write_all`: while the buffer is non-empty,
issue `Write(offset, buf)` — the source does not advance `offset` here —
then drop the first `WriteRes.count` bytes from the buffer.  `counts` is
the oracle of per-write server counts; returns the issued `(offset,
data)` ops and the unused counts, or `none` when the oracle runs out. -/
def innerWrites (offset : Nat) :
    List Nat → List Nat → Option (List (Nat × List Nat) × List Nat)
  | [], counts => some ([], counts)
  | _ :: _, [] => none
  | b :: bs, c :: cs =>
    (innerWrites offset ((b :: bs).drop c) cs).map
      fun p => ((offset, b :: bs) :: p.1, p.2)

/-- Outer loop of `write_all`: read up to `max_write` bytes from the
source (a byte-slice source fills `min(max_write, remaining)`), break
when the read returns no bytes, run the retry loop on the chunk, then
advance the offset by the amount read and continue with the rest of the
source. -/
def writeAllOps (maxWrite : Nat) (source : List Nat) (offset : Nat) (counts : List Nat) :
    Option (List (Nat × List Nat)) :=
  if h : (source.take maxWrite).isEmpty then some []
  else
    match innerWrites offset (source.take maxWrite) counts with
    | none => none
    | some (ops, counts2) =>
      (writeAllOps maxWrite (source.drop maxWrite)
          (offset + (source.take maxWrite).length) counts2).map
        (fun rest => ops ++ rest)
termination_by source.length
decreasing_by
  have h2 : ¬maxWrite = 0 ∧ ¬source = [] := by simpa using h
  have h5 : 0 < source.length := List.length_pos.mpr h2.2
  have h6 : 0 < maxWrite := Nat.pos_of_ne_zero h2.1
  simp only [List.length_drop]
  omega

/-- Apply `(offset, data)` Write ops to an initially empty remote image
in order; later writes overwrite earlier bytes at the same offset. -/
def applyWrites (ops : List (Nat × List Nat)) : Nat → Option Nat :=
  ops.foldl
    (fun mem op => fun a =>
      if op.1 ≤ a ∧ a < op.1 + op.2.length then some (op.2.getD (a - op.1) 0) else mem a)
    (fun _ => none)

/-- Claim C1 fails on the code: with `max_write = 2`, source bytes
`[10, 20]` and a server answering `WriteRes.count = 1` to each Write,
`write_all` issues `Write(offset 0, [10, 20])` and then re-sends the
unwritten suffix at the SAME offset — `Write(offset 0, [20])` — so the
stored byte at offset 0 ends as 20 while the source byte at position 0 is
10.  The claim (and the spec's "preserve caller-supplied bytes exactly")
requires the re-send at offset advanced by `WriteRes.count`. -/
theorem write_all_short_write_bug :
    writeAllOps 2 [10, 20] 0 [1, 1] = some [(0, [10, 20]), (0, [20])]
    ∧ applyWrites [(0, [10, 20]), (0, [20])] 0 = some 20
    ∧ ([10, 20] : List Nat).getD 0 0 = 10 := by
  refine ⟨?_, rfl, rfl⟩
  rw [writeAllOps]
  norm_num [innerWrites]
  rw [writeAllOps]
  norm_num

/-! ## C10: read_dir panic on an empty eof=false reply

`Client::read_dir` (src/nfs4_client/src/lib.rs lines 659..696)
accumulates `entries.extend(res.reply.entries)`, breaks on `eof`, and
otherwise continues from `entries.last().unwrap().cookie` — an `unwrap`
that panics when the accumulated list is empty. -/

/-- A directory entry as used by the loop (the cookie is the
continuation token; remaining fields are irrelevant here). -/
structure DirEntryM where
  cookie : Nat
  name : String
  deriving DecidableEq, Repr

/-- One server `ReadDir` reply (the `DirectoryList` inside
`ReadDirRes`). -/
structure DirReplyM where
  entries : List DirEntryM
  eof : Bool
  deriving DecidableEq, Repr

/-- Outcome of the `read_dir` loop over a finite trace of replies. -/
inductive ReadDirOutcome where
  | ok (entries : List DirEntryM)
  | panicked
  | outOfReplies
  deriving DecidableEq, Repr

/-- The `read_dir` loop: extend the accumulator with the reply's
entries; break with the accumulated entries on `eof`; otherwise read the
continuation cookie with `entries.last().unwrap()` — a panic (modelled
as `panicked`) when the accumulated list is empty — and continue with the
next reply of the trace. -/
def readDirLoop : List DirReplyM → List DirEntryM → ReadDirOutcome
  | [], _ => .outOfReplies
  | r :: rest, entries =>
    let entries2 := entries ++ r.entries
    if r.eof then .ok entries2
    else
      match entries2.getLast? with
      | none => .panicked
      | some _ => readDirLoop rest entries2

/-- `Client::read_dir` over a reply trace, starting with no entries. -/
def readDirM (replies : List DirReplyM) : ReadDirOutcome :=
  readDirLoop replies []

/-- Entries accumulated after consuming replies `0..k` (inclusive),
starting from accumulator `acc`. -/
def accUpTo (acc : List DirEntryM) (replies : List DirReplyM) (k : Nat) : List DirEntryM :=
  acc ++ ((replies.take (k + 1)).map DirReplyM.entries).flatten

theorem accUpTo_zero_cons (acc : List DirEntryM) (r : DirReplyM) (rest : List DirReplyM) :
    accUpTo acc (r :: rest) 0 = acc ++ r.entries := by
  rw [accUpTo]
  simp

theorem accUpTo_succ_cons (acc : List DirEntryM) (r : DirReplyM) (rest : List DirReplyM)
    (k : Nat) :
    accUpTo acc (r :: rest) (k + 1) = accUpTo (acc ++ r.entries) rest k := by
  rw [accUpTo, accUpTo, List.take_succ_cons, List.map_cons, List.flatten_cons,
    ← List.append_assoc]

theorem readDirLoop_ok_nonempty :
    ∀ (replies : List DirReplyM) (acc es : List DirEntryM),
      readDirLoop replies acc = .ok es →
      ∀ k, k < replies.length →
      (∀ j, j ≤ k → (replies.getD j ⟨[], true⟩).eof = false) →
      accUpTo acc replies k ≠ [] := by
  intro replies
  induction replies with
  | nil =>
    intro acc es h k hk
    exact absurd hk (by simp)
  | cons r rest ih =>
    intro acc es h k hk hall
    have h0 : r.eof = false := by simpa using hall 0 (Nat.zero_le k)
    simp only [readDirLoop, h0, Bool.false_eq_true, if_false] at h
    match hlast : (acc ++ r.entries).getLast? with
    | none =>
      rw [hlast] at h
      exact absurd h (by simp)
    | some x =>
      rw [hlast] at h
      match k with
      | 0 =>
        rw [accUpTo_zero_cons]
        intro hempty
        rw [hempty] at hlast
        exact absurd hlast (by simp)
      | Nat.succ j =>
        rw [accUpTo_succ_cons]
        have hshift : ∀ j2, j2 ≤ j → (rest.getD j2 ⟨[], true⟩).eof = false := by
          intro j2 hj2
          have := hall (j2 + 1) (by omega)
          simpa using this
        have hjlt : j < rest.length := by
          simp only [List.length_cons] at hk
          omega
        exact ih (acc ++ r.entries) es h j hjlt hshift

/-- Claim C10: whenever the consumed replies through index `k` all have
`eof = false` and leave the accumulated entry list (including reply `k`'s
entries) empty, `read_dir` panics via `entries.last().unwrap()` instead
of returning an error; and `read_dir` returns normally only if every such
`eof = false` prefix leaves at least one accumulated entry. -/
theorem read_dir_empty_reply_panics :
    (∀ (replies : List DirReplyM) (acc : List DirEntryM) (k : Nat),
        k < replies.length →
        (∀ j, j ≤ k → (replies.getD j ⟨[], true⟩).eof = false) →
        accUpTo acc replies k = [] →
        readDirLoop replies acc = .panicked)
    ∧ (∀ (replies : List DirReplyM) (es : List DirEntryM),
        readDirM replies = .ok es →
        ∀ k, k < replies.length →
        (∀ j, j ≤ k → (replies.getD j ⟨[], true⟩).eof = false) →
        accUpTo [] replies k ≠ []) := by
  constructor
  . intro replies acc k hk hall hempty
    match replies with
    | [] => exact absurd hk (by simp)
    | r :: rest =>
      have h0 : r.eof = false := by simpa using hall 0 (Nat.zero_le k)
      obtain ⟨ha, hb⟩ : acc = [] ∧ r.entries = [] := by
        have hz : accUpTo acc (r :: rest) 0 = [] := by
          match k with
          | 0 => exact hempty
          | Nat.succ j =>
            rw [accUpTo_succ_cons] at hempty
            rw [accUpTo_zero_cons]
            rw [accUpTo] at hempty
            have := List.append_eq_nil.mp hempty
            exact this.1
        rw [accUpTo_zero_cons] at hz
        exact List.append_eq_nil.mp hz
      simp [readDirLoop, ha, hb, h0]
  . intro replies es h k hk hall
    exact readDirLoop_ok_nonempty replies [] es h k hk hall

/-- Witness for C10: a single reply with no entries and `eof = false`
makes `read_dir` panic. -/
theorem read_dir_empty_reply_panics_witness :
    (0 : Nat) < ([⟨[], false⟩] : List DirReplyM).length
    ∧ (∀ j, j ≤ 0 → (([⟨[], false⟩] : List DirReplyM).getD j ⟨[], true⟩).eof = false)
    ∧ accUpTo [] [⟨[], false⟩] 0 = []
    ∧ readDirLoop [⟨[], false⟩] [] = .panicked :=
  ⟨by decide, fun j hj => by interval_cases j; decide, by decide,
   read_dir_empty_reply_panics.1 [⟨[], false⟩] [] 0 (by decide)
     (fun j hj => by interval_cases j; decide) (by decide)⟩

end Nfs4Spec
